import Mathlib

/-!
Verification of the VersionManager core against its specification.
Shallow embedding of the Python source under src/: the change detection
engine (src/core/verification.py), the metadata store
(src/database/db_manager.py), the version and backup lifecycle manager
and relink resolver (src/core/file_service.py), and the background job
queue (src/core/job_queue.py).

Machine integers do not occur: sizes are Nat, timestamps are Int
(the source stores float mtimes; the embedded claims only compare and
subtract them, which Int models faithfully).  Hashing is embedded as an
arbitrary function from byte content to hex strings, threaded explicitly,
matching the source contract that the algorithm choice does not matter.
-/

namespace VersionManager

/-! ## Byte level model of the filesystem -/

/-- A file on disk: its byte content and its modification time.
The size reported by stat equals the length of the content;
shutil.copy2 copies the content and preserves the mtime, so a copy of
a DiskFile is the same DiskFile. -/
structure DiskFile where
  content : List Nat
  mtime : Int
deriving DecidableEq

/-- The filesystem: an association list from absolute paths to files,
listed in directory walk order. -/
abbrev FS := List (String × DiskFile)

/-- Look a path up on disk (Path.exists / stat / open). -/
def FS.get (fs : FS) (p : String) : Option DiskFile :=
  (fs.find? (fun e => e.1 == p)).map (fun e => e.2)

/-- Write a file at a path, replacing any previous content. -/
def FS.set (fs : FS) (p : String) (d : DiskFile) : FS :=
  (p, d) :: fs.filter (fun e => !(e.1 == p))

/-- Remove a file at a path (Path.unlink). -/
def FS.erase (fs : FS) (p : String) : FS :=
  fs.filter (fun e => !(e.1 == p))

theorem find?_filter_of_imp {α} (l : List α) (pr ke : α → Bool)
    (h : ∀ a, pr a = true → ke a = true) :
    (l.filter ke).find? pr = l.find? pr := by
  induction l with
  | nil => rfl
  | cons a l ih =>
    by_cases hk : ke a = true
    · by_cases hp : pr a = true <;>
        simp [List.filter_cons, hk, List.find?_cons, hp, ih]
    · have hpf : pr a = false := by
        cases hpa : pr a
        · rfl
        · exact absurd (h a hpa) hk
      simp [List.filter_cons, hk, List.find?_cons, hpf, ih]

theorem FS.get_set_self (fs : FS) (p : String) (d : DiskFile) :
    FS.get (FS.set fs p d) p = some d := by
  simp [FS.get, FS.set, List.find?_cons]

theorem FS.get_set_ne (fs : FS) (p q : String) (d : DiskFile) (h : q ≠ p) :
    FS.get (FS.set fs p d) q = FS.get fs q := by
  have hpq : (p == q) = false := by
    simp [beq_iff_eq]
    exact fun hh => h hh.symm
  unfold FS.get FS.set
  rw [List.find?_cons]
  simp only [hpq]
  rw [find?_filter_of_imp]
  intro a ha
  have : a.1 = q := by simpa [beq_iff_eq] using ha
  simp [beq_iff_eq, this]
  exact fun hh => h hh

theorem FS.get_erase_self (fs : FS) (p : String) :
    FS.get (FS.erase fs p) p = none := by
  unfold FS.get FS.erase
  have : (fs.filter (fun e => !(e.1 == p))).find? (fun e => e.1 == p) = none := by
    rw [List.find?_eq_none]
    intro x hx
    have := List.of_mem_filter hx
    simpa using this
  simp [this]

/-! ## Path helpers (pathlib semantics used by the source) -/

/-- Path.name: the component after the last slash. -/
def baseName (s : String) : String :=
  ⟨(s.data.reverse.takeWhile (fun c => !(c == '/'))).reverse⟩

/-- Path.parent as a string: everything before the last slash. -/
def parentDir (s : String) : String :=
  match s.data.reverse.dropWhile (fun c => !(c == '/')) with
  | [] => ""
  | _ :: tl => ⟨tl.reverse⟩

/-- pathlib stem and suffix of a file name: the name splits at the last
dot only when that dot is neither the first nor the last character. -/
def splitStemExt (name : String) : String × String :=
  let cs := name.data
  match cs.reverse.findIdx? (fun c => c == '.') with
  | none => (name, "")
  | some k =>
    let i := cs.length - 1 - k
    if 0 < i ∧ i < cs.length - 1 then (⟨cs.take i⟩, ⟨cs.drop i⟩) else (name, "")

/-- str.lstrip with dots, as used on extensions in the relink scan. -/
def stripDots (s : String) : String :=
  ⟨s.data.dropWhile (fun c => c == '.')⟩

/-- str.lower: Char.toLower over every character. -/
def strLower (s : String) : String :=
  ⟨s.data.map Char.toLower⟩

/-- str.startswith for walk paths: the path begins with root plus a
slash. -/
def pathUnder (root p : String) : Bool :=
  List.isPrefixOf (root ++ "/").data p.data

/-! ## Data model (src/database/models.py) -/

inductive FileStatus where
  | OK
  | MODIFIED
  | MISSING
deriving DecidableEq

structure TrackedFile where
  id : String
  display_name : String
  file_path : String
  file_size : Nat
  modified_time : Int
  status : FileStatus
  created_at : String
  file_hash : Option String := none
  is_favorite : Bool := false
  is_archived : Bool := false
  project_id : Option String := none
deriving DecidableEq

structure Version where
  id : String
  file_id : String
  version_number : Nat
  commit_message : String
  file_size : Nat
  modified_time : Int
  created_at : String
  file_hash : Option String := none
  is_pinned : Bool := false
  pinned_path : Option String := none
deriving DecidableEq

inductive EventType where
  | RESTORE
  | PIN
  | UNPIN
  | DELETE
  | VERIFY_OK
  | VERIFY_MODIFIED
  | VERIFY_MISSING
  | RELINK
deriving DecidableEq

structure Event where
  id : String
  file_id : String
  event_type : EventType
  description : Option String
  created_at : String
deriving DecidableEq

/-- Python truthiness of an optional string: None and the empty string
are falsy.  The source guards stored hashes and pinned paths this way. -/
def pyTruthy : Option String → Bool
  | none => false
  | some s => !(s == "")

/-! ## Verification engine (src/core/verification.py) -/

structure FileState where
  exists_ : Bool
  file_size : Nat
  modified_time : Int
  file_hash : Option String := none
deriving DecidableEq

/-- compute_file_hash: hash the whole byte stream of the file, or None
when the path does not exist.  hashFn stands for the xxh64 or sha256
hexdigest of the byte content. -/
def compute_file_hash (fs : FS) (hashFn : List Nat → String) (file_path : String) :
    Option String :=
  (FS.get fs file_path).map (fun d => hashFn d.content)

/-- get_file_state: existence, size, mtime and optionally the hash;
a missing path yields the explicit missing state, not an error. -/
def get_file_state (fs : FS) (hashFn : List Nat → String) (file_path : String)
    (compute_hash : Bool) : FileState :=
  match FS.get fs file_path with
  | none => ⟨false, 0, 0, none⟩
  | some d =>
    ⟨true, d.content.length, d.mtime,
      if compute_hash then compute_file_hash fs hashFn file_path else none⟩

/-- check_file_status: the two stage policy of verification.py lines
81 to 113, including the Python truthiness test on the stored hash and
on the recomputed hash. -/
def check_file_status (fs : FS) (hashFn : List Nat → String) (tf : TrackedFile)
    (use_hash : Bool) : FileStatus :=
  let state := get_file_state fs hashFn tf.file_path false
  if state.exists_ = false then .MISSING
  else if state.file_size ≠ tf.file_size ∨ state.modified_time ≠ tf.modified_time then
    if use_hash && pyTruthy tf.file_hash then
      let current := compute_file_hash fs hashFn tf.file_path
      if pyTruthy current && (current == tf.file_hash) then .OK else .MODIFIED
    else .MODIFIED
  else .OK

/-! ## Version numbering (src/database/db_manager.py) -/

/-- get_next_version_number: SELECT MAX(version_number) for the file,
then (result or 0) + 1. -/
def get_next_version_number (versions : List Version) (fid : String) : Nat :=
  ((versions.filter (fun v => v.file_id == fid)).map
    (fun v => v.version_number)).foldl max 0 + 1

/-- create_version: allocate the next number and append the row. -/
def create_version (versions : List Version) (fid commit_message : String)
    (file_size : Nat) (modified_time : Int) (file_hash : Option String)
    (vid created_at : String) : List Version × Version :=
  let n := get_next_version_number versions fid
  let v : Version :=
    { id := vid, file_id := fid, version_number := n,
      commit_message := commit_message, file_size := file_size,
      modified_time := modified_time, created_at := created_at,
      file_hash := file_hash }
  (versions ++ [v], v)

/-- Sequential version creation: k calls of create_version in a row
for one file (the metadata of each version is irrelevant to numbering). -/
def createVersionsSeq (fid : String) (versions : List Version) : Nat → List Version
  | 0 => versions
  | k + 1 => (create_version (createVersionsSeq fid versions k) fid "" 0 0 none "" "").1

/-! ## Shared list lemmas -/

theorem foldl_max_le_init (l : List Nat) : ∀ i : Nat, i ≤ l.foldl max i := by
  induction l with
  | nil => intro i; exact Nat.le_refl i
  | cons a l ih =>
    intro i
    exact Nat.le_trans (Nat.le_max_left i a) (ih (max i a))

theorem mem_le_foldl_max (l : List Nat) (a : Nat) (ha : a ∈ l) :
    ∀ i : Nat, a ≤ l.foldl max i := by
  induction l with
  | nil => cases ha
  | cons b l ih =>
    intro i
    rcases List.mem_cons.mp ha with h | h
    · subst h
      exact Nat.le_trans (Nat.le_max_right i a) (foldl_max_le_init l (max i a))
    · exact ih h (max i b)

theorem foldl_max_range' (k : Nat) : (List.range' 1 k).foldl max 0 = k := by
  induction k with
  | zero => rfl
  | succ k ih =>
    have hconc : List.range' 1 (k + 1) = List.range' 1 k ++ [1 + 1 * k] :=
      List.range'_concat 1 k
    rw [hconc, List.foldl_append, ih]
    simp only [List.foldl_cons, List.foldl_nil]
    omega

/-- Claim C1: check_file_status returns MISSING when the path does not
exist; OK when live size and mtime both equal the stored values; when
either differs and a stored hash exists, OK exactly when the recomputed
live hash equals the stored hash, else MODIFIED; and MODIFIED when
either differs and no stored hash exists.  Hashes stored by this system
are hex digests, hence nonempty, which the third case assumes. -/
theorem check_file_status_classification
    (fs : FS) (hashFn : List Nat → String) (tf : TrackedFile) :
    (FS.get fs tf.file_path = none →
       check_file_status fs hashFn tf true = .MISSING)
  ∧ (∀ d : DiskFile, FS.get fs tf.file_path = some d →
       d.content.length = tf.file_size → d.mtime = tf.modified_time →
       check_file_status fs hashFn tf true = .OK)
  ∧ (∀ (d : DiskFile) (h : String), FS.get fs tf.file_path = some d →
       (d.content.length ≠ tf.file_size ∨ d.mtime ≠ tf.modified_time) →
       tf.file_hash = some h → h ≠ "" →
       ((hashFn d.content = h → check_file_status fs hashFn tf true = .OK) ∧
        (hashFn d.content ≠ h → check_file_status fs hashFn tf true = .MODIFIED)))
  ∧ (∀ d : DiskFile, FS.get fs tf.file_path = some d →
       (d.content.length ≠ tf.file_size ∨ d.mtime ≠ tf.modified_time) →
       tf.file_hash = none →
       check_file_status fs hashFn tf true = .MODIFIED) := by
  refine ⟨?_, ?_, ?_, ?_⟩
  · intro hget
    simp [check_file_status, get_file_state, hget]
  · intro d hget hsz hmt
    simp [check_file_status, get_file_state, hget, hsz, hmt]
  · intro d h hget hdiff hhash hne
    constructor
    · intro heq
      simp [check_file_status, get_file_state, compute_file_hash, hget, hdiff,
        hhash, pyTruthy, heq, hne]
    · intro hneq
      simp [check_file_status, get_file_state, compute_file_hash, hget, hdiff,
        hhash, pyTruthy, hneq]
  · intro d hget hdiff hhash
    simp [check_file_status, get_file_state, hget, hdiff, hhash, pyTruthy]

/-- Witness for C1: the spec test vector (b): stored size 100 and mtime
1000, live size 100 and mtime 2000, stored hash H and matching live
hash, classified OK. -/
theorem check_file_status_classification_witness :
    check_file_status [("p", ⟨List.replicate 100 0, 2000⟩)] (fun _ => "H")
      { id := "f1", display_name := "p", file_path := "p", file_size := 100,
        modified_time := 1000, status := .OK, created_at := "",
        file_hash := some "H" } true = .OK :=
  ((check_file_status_classification [("p", ⟨List.replicate 100 0, 2000⟩)]
      (fun _ => "H")
      { id := "f1", display_name := "p", file_path := "p", file_size := 100,
        modified_time := 1000, status := .OK, created_at := "",
        file_hash := some "H" }).2.2.1
    ⟨List.replicate 100 0, 2000⟩ "H" (by decide) (by decide) rfl
    (by decide)).1 rfl

/-- Claim C2: the version number assigned by create_version is one more
than the current maximum for the file, 1 when the file has no versions;
it is strictly greater than every existing number for the file (so
numbers strictly increase and are never reused), and sequential
creation from an empty history yields exactly the numbers 1..k with no
gaps. -/
theorem version_numbering (versions : List Version) (fid : String) :
    (versions.filter (fun v => v.file_id == fid) = [] →
       get_next_version_number versions fid = 1)
  ∧ (∀ (msg : String) (sz : Nat) (mt : Int) (hs : Option String)
       (vid ca : String) (v' : Version), v' ∈ versions → v'.file_id = fid →
       v'.version_number <
         (create_version versions fid msg sz mt hs vid ca).2.version_number)
  ∧ (versions.filter (fun v => v.file_id == fid) = [] →
       ∀ k : Nat,
         ((createVersionsSeq fid versions k).filter
             (fun v => v.file_id == fid)).map (fun v => v.version_number) =
           List.range' 1 k) := by
  refine ⟨?_, ?_, ?_⟩
  · intro hemp
    simp [get_next_version_number, hemp]
  · intro msg sz mt hs vid ca v' hv' hfid
    have hmem : v'.version_number ∈
        ((versions.filter (fun v => v.file_id == fid)).map
          (fun v => v.version_number)) := by
      exact List.mem_map_of_mem _ (List.mem_filter.mpr ⟨hv', by simp [hfid]⟩)
    have hle := mem_le_foldl_max _ _ hmem 0
    simp only [create_version, get_next_version_number]
    omega
  · intro hemp k
    induction k with
    | zero => simpa [createVersionsSeq] using hemp
    | succ k ih =>
      have hnum : get_next_version_number (createVersionsSeq fid versions k) fid
          = k + 1 := by
        unfold get_next_version_number
        rw [ih, foldl_max_range' k]
      have hconc : List.range' 1 (k + 1) = List.range' 1 k ++ [1 + 1 * k] :=
        List.range'_concat 1 k
      have harith : 1 + 1 * k = k + 1 := by omega
      simp only [createVersionsSeq, create_version]
      rw [List.filter_append, List.map_append, ih, hconc, harith]
      simp [hnum]

/-- Witness for C2: an empty history for file f yields next number 1,
and three sequential creations yield exactly the numbers 1, 2, 3. -/
theorem version_numbering_witness :
    get_next_version_number [] "f" = 1 ∧
    ((createVersionsSeq "f" [] 3).filter (fun v => v.file_id == "f")).map
        (fun v => v.version_number) = List.range' 1 3 :=
  ⟨(version_numbering [] "f").1 rfl, (version_numbering [] "f").2.2 rfl 3⟩

/-! ## Schema and migration (db_manager.py, _init_database lines 33-210) -/

/-- A relational table: column names in order, and rows (one optional
text value per column; SQLite is dynamically typed, so a uniform value
type loses nothing the migration touches). -/
structure Table where
  cols : List String
  rows : List (List (Option String))
deriving DecidableEq

/-- The on-disk database: one optional table per entity (absent before
creation). -/
structure DBSchema where
  files : Option Table := none
  versions : Option Table := none
  tags : Option Table := none
  tag_links : Option Table := none
  events : Option Table := none
  metadataTbl : Option Table := none
  projects : Option Table := none
deriving DecidableEq

/-- CREATE TABLE IF NOT EXISTS: keep an existing table with all its
data, else create it empty with the given columns. -/
def createTableIfNotExists (t : Option Table) (cols : List String) : Table :=
  match t with
  | some tbl => tbl
  | none => ⟨cols, []⟩

/-- PRAGMA table_info then ALTER TABLE ADD COLUMN when absent: existing
rows are kept and extended with the default value. -/
def addColumnIfMissing (t : Table) (c : String) (dflt : Option String) : Table :=
  if c ∈ t.cols then t else ⟨t.cols ++ [c], t.rows.map (fun r => r ++ [dflt])⟩

/-- The column migrations applied to the files table, in source order:
file_hash, is_favorite, is_archived, project_id. -/
def migrateFilesCols (t : Table) : Table :=
  addColumnIfMissing (addColumnIfMissing (addColumnIfMissing
    (addColumnIfMissing t "file_hash" none) "is_favorite" (some "0"))
    "is_archived" (some "0")) "project_id" none

/-- The column migrations applied to the versions table, in source
order: file_hash, is_pinned, pinned_path. -/
def migrateVersionsCols (t : Table) : Table :=
  addColumnIfMissing (addColumnIfMissing
    (addColumnIfMissing t "file_hash" none) "is_pinned" (some "0"))
    "pinned_path" none

/-- _init_database: create the seven tables if absent, then run the
missing-column migrations.  The source interleaves files and versions
migrations; they touch distinct tables so they are grouped per table
here. -/
def init_database (db : DBSchema) : DBSchema :=
  let files := createTableIfNotExists db.files
    ["id", "display_name", "file_path", "file_size", "modified_time",
     "status", "created_at", "file_hash"]
  let versions := createTableIfNotExists db.versions
    ["id", "file_id", "version_number", "commit_message", "file_size",
     "modified_time", "created_at", "file_hash"]
  let tags := createTableIfNotExists db.tags ["id", "name", "created_at"]
  let tag_links := createTableIfNotExists db.tag_links
    ["id", "tag_id", "file_id", "version_id", "created_at"]
  let events := createTableIfNotExists db.events
    ["id", "file_id", "event_type", "description", "created_at"]
  let metadataTbl := createTableIfNotExists db.metadataTbl
    ["file_id", "data", "created_at", "updated_at"]
  let projects := createTableIfNotExists db.projects
    ["id", "name", "description", "color", "created_at"]
  { files := some (migrateFilesCols files),
    versions := some (migrateVersionsCols versions),
    tags := some tags, tag_links := some tag_links, events := some events,
    metadataTbl := some metadataTbl, projects := some projects }

theorem addColumnIfMissing_mem (t : Table) (c : String) (d : Option String) :
    c ∈ (addColumnIfMissing t c d).cols := by
  unfold addColumnIfMissing
  split
  · assumption
  · simp

theorem addColumnIfMissing_mem_mono {t : Table} {c' : String}
    (c : String) (d : Option String) (h : c' ∈ t.cols) :
    c' ∈ (addColumnIfMissing t c d).cols := by
  unfold addColumnIfMissing
  split
  · exact h
  · simp [h]

theorem addColumnIfMissing_of_mem {t : Table} {c : String} (d : Option String)
    (h : c ∈ t.cols) : addColumnIfMissing t c d = t := by
  unfold addColumnIfMissing
  simp [h]

theorem migrateFilesCols_idem (t : Table) :
    migrateFilesCols (migrateFilesCols t) = migrateFilesCols t := by
  have h1 : "file_hash" ∈ (migrateFilesCols t).cols := by
    unfold migrateFilesCols
    exact addColumnIfMissing_mem_mono _ _ (addColumnIfMissing_mem_mono _ _
      (addColumnIfMissing_mem_mono _ _ (addColumnIfMissing_mem _ _ _)))
  have h2 : "is_favorite" ∈ (migrateFilesCols t).cols := by
    unfold migrateFilesCols
    exact addColumnIfMissing_mem_mono _ _ (addColumnIfMissing_mem_mono _ _
      (addColumnIfMissing_mem _ _ _))
  have h3 : "is_archived" ∈ (migrateFilesCols t).cols := by
    unfold migrateFilesCols
    exact addColumnIfMissing_mem_mono _ _ (addColumnIfMissing_mem _ _ _)
  have h4 : "project_id" ∈ (migrateFilesCols t).cols := by
    unfold migrateFilesCols
    exact addColumnIfMissing_mem _ _ _
  show addColumnIfMissing (addColumnIfMissing (addColumnIfMissing
    (addColumnIfMissing (migrateFilesCols t) "file_hash" none)
    "is_favorite" (some "0")) "is_archived" (some "0")) "project_id" none
    = migrateFilesCols t
  rw [addColumnIfMissing_of_mem _ h1, addColumnIfMissing_of_mem _ h2,
    addColumnIfMissing_of_mem _ h3, addColumnIfMissing_of_mem _ h4]

theorem migrateVersionsCols_idem (t : Table) :
    migrateVersionsCols (migrateVersionsCols t) = migrateVersionsCols t := by
  have h1 : "file_hash" ∈ (migrateVersionsCols t).cols := by
    unfold migrateVersionsCols
    exact addColumnIfMissing_mem_mono _ _ (addColumnIfMissing_mem_mono _ _
      (addColumnIfMissing_mem _ _ _))
  have h2 : "is_pinned" ∈ (migrateVersionsCols t).cols := by
    unfold migrateVersionsCols
    exact addColumnIfMissing_mem_mono _ _ (addColumnIfMissing_mem _ _ _)
  have h3 : "pinned_path" ∈ (migrateVersionsCols t).cols := by
    unfold migrateVersionsCols
    exact addColumnIfMissing_mem _ _ _
  show addColumnIfMissing (addColumnIfMissing (addColumnIfMissing
    (migrateVersionsCols t) "file_hash" none) "is_pinned" (some "0"))
    "pinned_path" none = migrateVersionsCols t
  rw [addColumnIfMissing_of_mem _ h1, addColumnIfMissing_of_mem _ h2,
    addColumnIfMissing_of_mem _ h3]

/-- Claim C8: running startup initialization and migration a second
time against the same database is a no-op: every missing-column check
finds its column present, the schema is identical, no error is raised
(the function is total) and no data is lost (the second run returns the
first result unchanged, rows included). -/
theorem migration_idempotent (db : DBSchema) :
    init_database (init_database db) = init_database db := by
  simp only [init_database, createTableIfNotExists]
  rw [migrateFilesCols_idem, migrateVersionsCols_idem]

/-! ## Background job queue (src/core/job_queue.py) -/

inductive JobType where
  | VERIFY_ALL
  | PIN_COPY
  | RESTORE
  | RELINK_SCAN
deriving DecidableEq

inductive JobStatus where
  | QUEUED
  | RUNNING
  | PAUSED
  | COMPLETED
  | FAILED
  | CANCELED
deriving DecidableEq

structure Job where
  id : String
  job_type : JobType
  description : String
  status : JobStatus := .QUEUED
  progress : Nat := 0
  error : Option String := none
deriving DecidableEq

/-- A handler invocation: the final state of the mutable job when the
handler returns or raises, together with the raised exception message
if any (handler mutations made before a raise are kept, as in Python). -/
abbrev Handler := Job → Job × Option String

/-- One iteration of the worker body in JobQueue._run (lines 138-162):
mark the job RUNNING, look up the handler, fail with a descriptive
error when none is registered, otherwise run it, catching any raised
exception into job.error and FAILED; a normally returning handler
leaves CANCELED and FAILED alone and completes everything else. -/
def processJob (handlers : JobType → Option Handler) (job : Job) : Job :=
  let job := { job with status := JobStatus.RUNNING, progress := 0 }
  match handlers job.job_type with
  | none => { job with status := JobStatus.FAILED,
                       error := some "No handler for job type" }
  | some h =>
    let r := h job
    match r.2 with
    | some msg => { r.1 with status := JobStatus.FAILED, error := some msg }
    | none =>
      if r.1.status = JobStatus.CANCELED ∨ r.1.status = JobStatus.FAILED then r.1
      else { r.1 with status := JobStatus.COMPLETED, progress := 100 }

/-- The worker loop of JobQueue._run: pull queue items until the stop
sentinel (None); every real job is processed by processJob and the
loop continues regardless of how the previous job ended. -/
def runWorker (handlers : JobType → Option Handler) :
    List (Option Job) → List Job
  | [] => []
  | none :: _ => []
  | some j :: rest => processJob handlers j :: runWorker handlers rest

/-- Claim C9: a job whose type has no registered handler goes to FAILED
with a descriptive error and no handler runs; a handler that raises is
caught by the scheduler, the message is recorded on job.error and the
job is FAILED; and the worker loop survives either outcome, processing
every subsequent queue item. -/
theorem job_failure_handling (handlers : JobType → Option Handler) (j : Job)
    (rest : List (Option Job)) :
    (handlers j.job_type = none →
       (processJob handlers j).status = JobStatus.FAILED ∧
       (processJob handlers j).error = some "No handler for job type")
  ∧ (∀ (h : Handler) (j' : Job) (msg : String), handlers j.job_type = some h →
       h { j with status := JobStatus.RUNNING, progress := 0 } = (j', some msg) →
       processJob handlers j =
         { j' with status := JobStatus.FAILED, error := some msg })
  ∧ runWorker handlers (some j :: rest) =
      processJob handlers j :: runWorker handlers rest := by
  refine ⟨?_, ?_, ?_⟩
  · intro hnone
    simp [processJob, hnone]
  · intro h j' msg hsome hrun
    simp [processJob, hsome, hrun]
  · rfl

/-- Witness for C9: a queue with a job of unhandled type fails with the
descriptive error, and a handler raising the message boom yields a
FAILED job carrying that message. -/
theorem job_failure_handling_witness :
    (processJob (fun t => match t with
        | JobType.RELINK_SCAN => none
        | _ => some (fun jb => (jb, some "boom")))
      { id := "j1", job_type := JobType.RELINK_SCAN,
        description := "scan" }).status = JobStatus.FAILED ∧
    processJob (fun _ => some (fun jb => (jb, some "boom")))
        { id := "j2", job_type := JobType.VERIFY_ALL, description := "verify" } =
      { id := "j2", job_type := JobType.VERIFY_ALL, description := "verify",
        status := JobStatus.FAILED, progress := 0, error := some "boom" } := by
  constructor
  · exact ((job_failure_handling _ _ []).1 rfl).1
  · exact (job_failure_handling _ _ []).2.1 _
      { id := "j2", job_type := JobType.VERIFY_ALL, description := "verify",
        status := JobStatus.RUNNING, progress := 0, error := none }
      "boom" rfl rfl

/-! ## World state: filesystem plus database
(src/database/db_manager.py, src/core/file_service.py) -/

/-- The combined state: the disk, the directories created in the pin
storage area, and the database tables.  Table contents are lists of
rows in insertion order. -/
structure World where
  fs : FS := []
  dirs : List String := []
  files : List TrackedFile := []
  versions : List Version := []
  events : List Event := []
  metadataRows : List (String × String) := []
deriving DecidableEq

/-- DatabaseManager.get_file: SELECT FROM files WHERE id. -/
def get_file (w : World) (fid : String) : Option TrackedFile :=
  w.files.find? (fun f => f.id == fid)

/-- DatabaseManager.get_version_by_number: SELECT FROM versions WHERE
file_id AND version_number, first row. -/
def get_version_by_number (w : World) (fid : String) (n : Nat) : Option Version :=
  w.versions.find? (fun v => v.file_id == fid && v.version_number == n)

/-- DatabaseManager.update_file_metadata (lines 359-383): UPDATE files
SET file_size, modified_time, status, file_hash WHERE id.  The hash
parameter defaults to None in the source; callers that omit it NULL
the stored hash. -/
def update_file_metadata (w : World) (fid : String) (file_size : Nat)
    (modified_time : Int) (status : FileStatus) (file_hash : Option String) :
    World :=
  { w with files := w.files.map (fun f =>
      if f.id == fid then
        { f with file_size := file_size, modified_time := modified_time,
                 status := status, file_hash := file_hash }
      else f) }

/-- DatabaseManager.update_file_location: UPDATE files SET file_path,
file_size, modified_time, status, file_hash WHERE id. -/
def update_file_location (w : World) (fid : String) (file_path : String)
    (file_size : Nat) (modified_time : Int) (status : FileStatus)
    (file_hash : Option String) : World :=
  { w with files := w.files.map (fun f =>
      if f.id == fid then
        { f with file_path := file_path, file_size := file_size,
                 modified_time := modified_time, status := status,
                 file_hash := file_hash }
      else f) }

/-- DatabaseManager.set_version_pinned: UPDATE versions SET is_pinned,
pinned_path WHERE file_id AND version_number. -/
def set_version_pinned (w : World) (fid : String) (n : Nat) (pinned : Bool)
    (pinned_path : Option String) : World :=
  { w with versions := w.versions.map (fun v =>
      if v.file_id == fid && v.version_number == n then
        { v with is_pinned := pinned, pinned_path := pinned_path }
      else v) }

/-- DatabaseManager.create_event: INSERT INTO events. -/
def db_create_event (w : World) (fid : String) (ty : EventType)
    (descr : Option String) (eid created_at : String) : World :=
  { w with events := w.events ++ [⟨eid, fid, ty, descr, created_at⟩] }

/-- DatabaseManager.delete_file (lines 430-442): DELETE FROM versions,
metadata and files for the id.  The events table is untouched: the
method issues no DELETE FROM events, and the sqlite3 connection never
runs PRAGMA foreign_keys ON, so the ON DELETE CASCADE declared on
events.file_id is not enforced (SQLite keeps foreign-key enforcement
off by default). -/
def db_delete_file (w : World) (fid : String) : World :=
  { w with versions := w.versions.filter (fun v => !(v.file_id == fid)),
           metadataRows := w.metadataRows.filter (fun m => !(m.1 == fid)),
           files := w.files.filter (fun f => !(f.id == fid)) }

/-! ## Backup path layout and the version/backup manager -/

/-- FileService configuration: the versions directory and the optional
pin storage root. -/
structure SvcConfig where
  versions_dir : String
  pin_storage_path : Option String := none

/-- _get_version_dir: <versionsRoot>/<fileId>. -/
def version_dir (cfg : SvcConfig) (fid : String) : String :=
  cfg.versions_dir ++ "/" ++ fid

/-- _get_version_path: <versionsRoot>/<fileId>/<stem>_v<N><ext>.  The
source also creates the per-file directory as a side effect; creation
of directories under the versions root touches no file content and is
not tracked (World.dirs tracks the pin storage directories, the ones
the claims reason about). -/
def version_path (cfg : SvcConfig) (fid : String) (n : Nat)
    (original_name : String) : String :=
  let se := splitStemExt original_name
  version_dir cfg fid ++ "/" ++ se.1 ++ "_v" ++ toString n ++ se.2

/-- _get_legacy_version_path: <versionsRoot>/<fileId>/v<N><ext>. -/
def legacy_version_path (cfg : SvcConfig) (fid : String) (n : Nat)
    (original_name : String) : String :=
  version_dir cfg fid ++ "/v" ++ toString n ++ (splitStemExt original_name).2

/-- get_version_backup_path (lines 528-556): the canonical name first,
then the legacy name, else None; only existing artifacts are returned. -/
def get_version_backup_path (cfg : SvcConfig) (w : World) (fid : String)
    (n : Nat) : Option String :=
  match get_file w fid with
  | none => none
  | some tf =>
    let canon := version_path cfg fid n tf.display_name
    if (FS.get w.fs canon).isSome then some canon
    else
      let leg := legacy_version_path cfg fid n tf.display_name
      if (FS.get w.fs leg).isSome then some leg else none

/-- register_file (lines 155-215): refuse a missing or already tracked
source, capture state with hash, create the TrackedFile row, create
version 1 and copy the source into the backup area (copy2 preserves
content and mtime).  Fresh row ids and the timestamp are supplied by
the caller, standing for uuid4 and datetime.now. -/
def register_file (cfg : SvcConfig) (hashFn : List Nat → String) (w : World)
    (file_path commit_message : String) (display_name : Option String)
    (fileId vid created_at : String) :
    Except String (World × TrackedFile × Version) :=
  match FS.get w.fs file_path with
  | none => .error "FileNotFoundError"
  | some d =>
    if (w.files.find? (fun f => f.file_path == file_path)).isSome then
      .error "ValueError: file already registered"
    else
      let name := display_name.getD (baseName file_path)
      let tf : TrackedFile :=
        { id := fileId, display_name := name, file_path := file_path,
          file_size := d.content.length, modified_time := d.mtime,
          status := .OK, created_at := created_at,
          file_hash := some (hashFn d.content) }
      let w1 := { w with files := w.files ++ [tf] }
      let cv := create_version w1.versions fileId commit_message
                  d.content.length d.mtime (some (hashFn d.content)) vid created_at
      let w2 := { w1 with versions := cv.1 }
      let bpath := version_path cfg fileId cv.2.version_number (baseName file_path)
      let w3 := { w2 with fs := FS.set w2.fs bpath d }
      .ok (w3, tf, cv.2)

/-- restore_version (lines 582-615): copy the backup over the live
path, then store the re-derived live size and mtime with status OK;
the update_file_metadata call passes no hash, so the stored hash
becomes NULL.  Returns False and changes nothing when the TrackedFile
or the backup artifact cannot be found. -/
def restore_version (cfg : SvcConfig) (hashFn : List Nat → String) (w : World)
    (fid : String) (n : Nat) : World × Bool :=
  match get_file w fid with
  | none => (w, false)
  | some tf =>
    match get_version_backup_path cfg w fid n with
    | none => (w, false)
    | some bp =>
      match FS.get w.fs bp with
      | none => (w, false)
      | some d =>
        let w1 := { w with fs := FS.set w.fs tf.file_path d }
        let st := get_file_state w1.fs hashFn tf.file_path true
        (update_file_metadata w1 fid st.file_size st.modified_time .OK none, true)

/-! ## Shared lemmas about lookups after updates -/

theorem find?_map_cond {α} (l : List α) (p : α → Bool) (upd : α → α)
    (hg : ∀ a, p (upd a) = p a) :
    (l.map (fun a => if p a then upd a else a)).find? p
      = (l.find? p).map upd := by
  induction l with
  | nil => rfl
  | cons a l ih =>
    by_cases hp : p a = true
    · simp [List.map_cons, List.find?_cons, hp, hg a]
    · have hpf : p a = false := by
        cases hpa : p a
        · rfl
        · exact absurd hpa hp
      simp [List.map_cons, List.find?_cons, hpf, ih]

theorem find?_append_none {α} {l₁ : List α} (l₂ : List α) (p : α → Bool)
    (h : l₁.find? p = none) : (l₁ ++ l₂).find? p = l₂.find? p := by
  induction l₁ with
  | nil => rfl
  | cons a l ih =>
    cases hpa : p a with
    | true => simp [List.find?_cons, hpa] at h
    | false =>
      simp only [List.find?_cons, hpa] at h
      simp only [List.cons_append, List.find?_cons, hpa]
      exact ih h

theorem get_file_update_file_metadata (w : World) (fid : String) (sz : Nat)
    (mt : Int) (st : FileStatus) (hs : Option String) :
    get_file (update_file_metadata w fid sz mt st hs) fid
      = (get_file w fid).map (fun f =>
          { f with file_size := sz, modified_time := mt,
                   status := st, file_hash := hs }) := by
  unfold get_file update_file_metadata
  exact find?_map_cond _ _ _ (fun a => rfl)

theorem restore_version_success (cfg : SvcConfig) (hashFn : List Nat → String)
    (w : World) (fid : String) (n : Nat) (tf : TrackedFile) (bp : String)
    (d : DiskFile)
    (htf : get_file w fid = some tf)
    (hbp : get_version_backup_path cfg w fid n = some bp)
    (hd : FS.get w.fs bp = some d) :
    restore_version cfg hashFn w fid n =
      (update_file_metadata { w with fs := FS.set w.fs tf.file_path d }
        fid d.content.length d.mtime .OK none, true) := by
  simp [restore_version, htf, hbp, hd, get_file_state, FS.get_set_self]

/-- Claim C7 fails on the code: DatabaseManager.delete_file removes the
files, versions and metadata rows of the file but leaves its Event rows
orphaned, because it issues no DELETE FROM events and the ON DELETE
CASCADE declared on events.file_id never runs (the sqlite3 connections
never enable foreign-key enforcement).  Evaluated here on a store
holding one file with one version, one metadata row and one event. -/
theorem delete_file_leaves_event_rows :
    db_delete_file
      { fs := [],
        files := [{ id := "f1", display_name := "a.txt", file_path := "/a.txt",
                    file_size := 1, modified_time := 0, status := .OK,
                    created_at := "t0" }],
        versions := [{ id := "v1", file_id := "f1", version_number := 1,
                       commit_message := "first", file_size := 1,
                       modified_time := 0, created_at := "t0" }],
        events := [{ id := "e1", file_id := "f1", event_type := .RESTORE,
                     description := none, created_at := "t1" }],
        metadataRows := [("f1", "meta")] } "f1"
    = { events := [{ id := "e1", file_id := "f1", event_type := .RESTORE,
                     description := none, created_at := "t1" }] } := by
  decide

/-- Claim C10: after a successful restore, the stored content hash of
the TrackedFile is NULL (the metadata update is issued without a hash
value), size, mtime and status are refreshed to the live values, every
other field is unchanged, and a later check_file_status on the file
classifies any size or mtime drift as MODIFIED, having no stored hash
to fall back on. -/
theorem restore_nulls_stored_hash (cfg : SvcConfig) (hashFn : List Nat → String)
    (w : World) (fid : String) (n : Nat) (tf : TrackedFile) (bp : String)
    (d : DiskFile)
    (htf : get_file w fid = some tf)
    (hbp : get_version_backup_path cfg w fid n = some bp)
    (hd : FS.get w.fs bp = some d) :
    get_file (restore_version cfg hashFn w fid n).1 fid =
      some { tf with file_size := d.content.length, modified_time := d.mtime,
                     status := .OK, file_hash := none }
  ∧ (∀ (fs2 : FS) (hashFn2 : List Nat → String) (d2 : DiskFile),
       FS.get fs2 tf.file_path = some d2 →
       (d2.content.length ≠ d.content.length ∨ d2.mtime ≠ d.mtime) →
       check_file_status fs2 hashFn2
         { tf with file_size := d.content.length, modified_time := d.mtime,
                   status := .OK, file_hash := none } true = .MODIFIED) := by
  constructor
  · rw [restore_version_success cfg hashFn w fid n tf bp d htf hbp hd]
    rw [get_file_update_file_metadata]
    have hsame : get_file { w with fs := FS.set w.fs tf.file_path d } fid
        = some tf := htf
    rw [hsame]
    rfl
  · intro fs2 hashFn2 d2 hget2 hdiff2
    simp [check_file_status, get_file_state, hget2, hdiff2, pyTruthy]

/-- Witness for C10: a tracked file with a stored hash H is restored
from its canonical version 1 backup; the resulting record carries the
live size and mtime, status OK and a NULL hash. -/
theorem restore_nulls_stored_hash_witness :
    get_file (restore_version ⟨"data/versions", none⟩ (fun _ => "H")
      { fs := [("data/versions/f1/a_v1.txt", ⟨[7], 5⟩), ("/a.txt", ⟨[9, 9], 6⟩)],
        files := [{ id := "f1", display_name := "a.txt", file_path := "/a.txt",
                    file_size := 2, modified_time := 6, status := .OK,
                    created_at := "t0", file_hash := some "H" }] }
      "f1" 1).1 "f1" =
    some { id := "f1", display_name := "a.txt", file_path := "/a.txt",
           file_size := 1, modified_time := 5, status := .OK,
           created_at := "t0", file_hash := none } :=
  (restore_nulls_stored_hash ⟨"data/versions", none⟩ (fun _ => "H")
    { fs := [("data/versions/f1/a_v1.txt", ⟨[7], 5⟩), ("/a.txt", ⟨[9, 9], 6⟩)],
      files := [{ id := "f1", display_name := "a.txt", file_path := "/a.txt",
                  file_size := 2, modified_time := 6, status := .OK,
                  created_at := "t0", file_hash := some "H" }] }
    "f1" 1
    { id := "f1", display_name := "a.txt", file_path := "/a.txt",
      file_size := 2, modified_time := 6, status := .OK,
      created_at := "t0", file_hash := some "H" }
    "data/versions/f1/a_v1.txt" ⟨[7], 5⟩
    (by decide) (by decide) (by decide)).1

theorem restore_after_register_aux (cfg : SvcConfig) (hashFn : List Nat → String)
    (w : World) (p fileId : String) (TF : TrackedFile) (VERlist : List Version)
    (d0 dmut : DiskFile)
    (hTFid : TF.id = fileId) (hTFpath : TF.file_path = p)
    (hTFname : TF.display_name = baseName p)
    (hfidfree : w.files.find? (fun f => f.id == fileId) = none)
    (hbpne : version_path cfg fileId 1 (baseName p) ≠ p) :
    ∃ w5 : World,
      restore_version cfg hashFn
        { w with files := w.files ++ [TF], versions := VERlist,
                 fs := FS.set (FS.set w.fs
                   (version_path cfg fileId 1 (baseName p)) d0) p dmut }
        fileId 1 = (w5, true) ∧
      FS.get w5.fs p = some d0 ∧
      ∃ tf5 : TrackedFile, get_file w5 fileId = some tf5 ∧ tf5.status = .OK ∧
        tf5.file_size = d0.content.length := by
  set w4 : World :=
    { w with files := w.files ++ [TF], versions := VERlist,
             fs := FS.set (FS.set w.fs
               (version_path cfg fileId 1 (baseName p)) d0) p dmut } with hw4
  have htf4 : get_file w4 fileId = some TF := by
    show (w.files ++ [TF]).find? (fun f => f.id == fileId) = some TF
    rw [find?_append_none _ _ hfidfree]
    simp [List.find?_cons, hTFid]
  have hcanon : FS.get w4.fs (version_path cfg fileId 1 TF.display_name)
      = some d0 := by
    rw [hTFname]
    show FS.get (FS.set (FS.set w.fs
      (version_path cfg fileId 1 (baseName p)) d0) p dmut)
      (version_path cfg fileId 1 (baseName p)) = some d0
    rw [FS.get_set_ne _ _ _ _ hbpne]
    exact FS.get_set_self _ _ _
  have hbp4 : get_version_backup_path cfg w4 fileId 1
      = some (version_path cfg fileId 1 TF.display_name) := by
    simp [get_version_backup_path, htf4, hcanon]
  have hres := restore_version_success cfg hashFn w4 fileId 1 TF
    (version_path cfg fileId 1 TF.display_name) d0 htf4 hbp4 hcanon
  refine ⟨_, hres, ?_, ?_⟩
  · show FS.get (FS.set w4.fs TF.file_path d0) p = some d0
    rw [hTFpath]
    exact FS.get_set_self _ _ _
  · rw [get_file_update_file_metadata]
    have hsame : get_file { w4 with fs := FS.set w4.fs TF.file_path d0 } fileId
        = some TF := htf4
    rw [hsame]
    exact ⟨_, rfl, rfl, rfl⟩

/-- Claim C4: restore copies the chosen backup artifact over the live
file path, stores the re-derived live size and mtime with status OK and
returns success; when the TrackedFile record or the backup artifact
cannot be found it returns failure and changes nothing; and the round
trip of registering a file, mutating its bytes on disk and restoring
version 1 recovers bytes identical to the registered content, with
status OK on the record. -/
theorem restore_version_contract (cfg : SvcConfig) (hashFn : List Nat → String)
    (w : World) (fid : String) (n : Nat) :
    (get_file w fid = none → restore_version cfg hashFn w fid n = (w, false))
  ∧ (∀ tf : TrackedFile, get_file w fid = some tf →
       get_version_backup_path cfg w fid n = none →
       restore_version cfg hashFn w fid n = (w, false))
  ∧ (∀ (tf : TrackedFile) (bp : String) (d : DiskFile),
       get_file w fid = some tf →
       get_version_backup_path cfg w fid n = some bp →
       FS.get w.fs bp = some d →
       restore_version cfg hashFn w fid n =
         (update_file_metadata { w with fs := FS.set w.fs tf.file_path d }
           fid d.content.length d.mtime .OK none, true))
  ∧ (∀ (p msg fileId vid ca : String) (d0 dmut : DiskFile) (w3 : World)
       (tf : TrackedFile) (ver : Version),
       FS.get w.fs p = some d0 →
       w.files.find? (fun f => f.id == fileId) = none →
       w.versions.filter (fun v => v.file_id == fileId) = [] →
       register_file cfg hashFn w p msg none fileId vid ca = .ok (w3, tf, ver) →
       version_path cfg fileId 1 (baseName p) ≠ p →
       ver.version_number = 1 ∧
       ∃ w5 : World,
         restore_version cfg hashFn { w3 with fs := FS.set w3.fs p dmut }
           fileId 1 = (w5, true) ∧
         FS.get w5.fs p = some d0 ∧
         ∃ tf5 : TrackedFile, get_file w5 fileId = some tf5 ∧
           tf5.status = .OK ∧ tf5.file_size = d0.content.length) := by
  refine ⟨?_, ?_, ?_, ?_⟩
  · intro h
    simp [restore_version, h]
  · intro tf htf hbp
    simp [restore_version, htf, hbp]
  · intro tf bp d htf hbp hd
    exact restore_version_success cfg hashFn w fid n tf bp d htf hbp hd
  · intro p msg fileId vid ca d0 dmut w3 tf ver hsrc hfidfree hverfree hreg hbpne
    have hnum : get_next_version_number w.versions fileId = 1 := by
      simp [get_next_version_number, hverfree]
    unfold register_file at hreg
    rw [hsrc] at hreg
    dsimp only at hreg
    by_cases hdup : (w.files.find? (fun f => f.file_path == p)).isSome = true
    · rw [if_pos hdup] at hreg
      cases hreg
    · rw [if_neg hdup] at hreg
      simp only [create_version, hnum, Except.ok.injEq, Prod.mk.injEq] at hreg
      obtain ⟨hw3, htfx, hverx⟩ := hreg
      rw [← hw3, ← hverx]
      refine ⟨rfl, ?_⟩
      exact restore_after_register_aux cfg hashFn w p fileId _
        (w.versions ++ [_]) d0 dmut rfl rfl rfl hfidfree hbpne

/-- Witness for C4: the file a.txt with bytes [1, 2] is registered,
overwritten with [9] and restored from version 1, recovering the
original bytes with status OK. -/
theorem restore_version_contract_witness :
    ({ id := "v1", file_id := "f1", version_number := 1, commit_message := "m",
       file_size := 2, modified_time := 10, created_at := "t",
       file_hash := some "H" } : Version).version_number = 1 ∧
    ∃ w5 : World,
      restore_version ⟨"vs", none⟩ (fun _ => "H")
        { ({ fs := [("vs/f1/a_v1.txt", ⟨[1, 2], 10⟩), ("a.txt", ⟨[1, 2], 10⟩)],
             files := [{ id := "f1", display_name := "a.txt",
                         file_path := "a.txt", file_size := 2,
                         modified_time := 10, status := .OK, created_at := "t",
                         file_hash := some "H" }],
             versions := [{ id := "v1", file_id := "f1", version_number := 1,
                            commit_message := "m", file_size := 2,
                            modified_time := 10, created_at := "t",
                            file_hash := some "H" }] } : World) with
          fs := FS.set [("vs/f1/a_v1.txt", ⟨[1, 2], 10⟩), ("a.txt", ⟨[1, 2], 10⟩)]
                  "a.txt" ⟨[9], 20⟩ }
        "f1" 1 = (w5, true) ∧
      FS.get w5.fs "a.txt" = some ⟨[1, 2], 10⟩ ∧
      ∃ tf5 : TrackedFile, get_file w5 "f1" = some tf5 ∧
        tf5.status = .OK ∧ tf5.file_size = ([1, 2] : List Nat).length :=
  (restore_version_contract ⟨"vs", none⟩ (fun _ => "H")
      { fs := [("a.txt", ⟨[1, 2], 10⟩)] } "f1" 1).2.2.2
    "a.txt" "m" "f1" "v1" "t" ⟨[1, 2], 10⟩ ⟨[9], 20⟩
    { fs := [("vs/f1/a_v1.txt", ⟨[1, 2], 10⟩), ("a.txt", ⟨[1, 2], 10⟩)],
      files := [{ id := "f1", display_name := "a.txt", file_path := "a.txt",
                  file_size := 2, modified_time := 10, status := .OK,
                  created_at := "t", file_hash := some "H" }],
      versions := [{ id := "v1", file_id := "f1", version_number := 1,
                     commit_message := "m", file_size := 2, modified_time := 10,
                     created_at := "t", file_hash := some "H" }] }
    { id := "f1", display_name := "a.txt", file_path := "a.txt",
      file_size := 2, modified_time := 10, status := .OK, created_at := "t",
      file_hash := some "H" }
    { id := "v1", file_id := "f1", version_number := 1, commit_message := "m",
      file_size := 2, modified_time := 10, created_at := "t",
      file_hash := some "H" }
    (by decide) rfl rfl rfl (by decide)

/-! ## Pin storage (file_service.py lines 808-898) -/

/-- mkdir with exist_ok: record a directory once. -/
def mkdirList (dirs : List String) (d : String) : List String :=
  if d ∈ dirs then dirs else dirs ++ [d]

/-- The per-file pin directory <pinRoot>/<fileId>. -/
def pin_dir (pinRoot fid : String) : String :=
  pinRoot ++ "/" ++ fid

/-- _get_pinned_version_path: <pinRoot>/<fileId>/<stem>_v<N>_pinned<ext>.
The per-file pin directory is created as a side effect at the call
site. -/
def pinned_version_path (pinRoot fid : String) (n : Nat)
    (display_name : String) : String :=
  let se := splitStemExt display_name
  pin_dir pinRoot fid ++ "/" ++
    (se.1 ++ "_v" ++ toString n ++ "_pinned" ++ se.2)

/-- pin_version (lines 832-868): error without a pin root; None when
the file or its backup is absent; otherwise mkdir the per-file pin
directory, copy the backup there and record the pin on the version
rows.  The innermost none branch is unreachable because
get_version_backup_path only returns existing paths. -/
def pin_version (cfg : SvcConfig) (w : World) (fid : String) (n : Nat) :
    World × Except String (Option String) :=
  match cfg.pin_storage_path with
  | none => (w, .error "ValueError: Pin storage path is not set")
  | some pinRoot =>
    match get_file w fid with
    | none => (w, .ok none)
    | some tf =>
      match get_version_backup_path cfg w fid n with
      | none => (w, .ok none)
      | some bp =>
        match FS.get w.fs bp with
        | none => (w, .ok none)
        | some d =>
          let pp := pinned_version_path pinRoot fid n tf.display_name
          let w1 := { w with dirs := mkdirList w.dirs (pin_dir pinRoot fid) }
          let w2 := { w1 with fs := FS.set w1.fs pp d }
          (set_version_pinned w2 fid n true (some pp), .ok (some pp))

/-- Emptiness of a directory as seen by Path.iterdir: no file and no
recorded directory has it as parent. -/
def World.dirEmpty (w : World) (d : String) : Bool :=
  w.fs.all (fun e => !(parentDir e.1 == d)) &&
    w.dirs.all (fun d2 => !(parentDir d2 == d))

/-- unpin_version (lines 870-898): False when the version row is
absent or not pinned; otherwise unlink the pinned copy when its path
is truthy and the file exists, remove the parent directory when it
exists and is left empty, and clear the pin on the version rows. -/
def unpin_version (w : World) (fid : String) (n : Nat) : World × Bool :=
  match get_version_by_number w fid n with
  | none => (w, false)
  | some v =>
    if !v.is_pinned then (w, false)
    else
      let w1 :=
        match v.pinned_path with
        | none => w
        | some pp =>
          if pp == "" then w
          else
            let wA := if (FS.get w.fs pp).isSome then
                        { w with fs := FS.erase w.fs pp } else w
            let parent := parentDir pp
            if parent ∈ wA.dirs && World.dirEmpty wA parent then
              { wA with dirs := wA.dirs.filter (fun d2 => !(d2 == parent)) }
            else wA
      (set_version_pinned w1 fid n false none, true)

/-! ## Path shape lemmas for the pin round trip -/

theorem dropWhile_append_of_all {α} (p : α → Bool) (l1 l2 : List α)
    (h : ∀ a ∈ l1, p a = true) :
    (l1 ++ l2).dropWhile p = l2.dropWhile p := by
  induction l1 with
  | nil => rfl
  | cons a l ih =>
    simp only [List.cons_append, List.dropWhile_cons, h a (by simp)]
    exact ih (fun b hb => h b (by simp [hb]))

theorem parentDir_eq (s a : String) (b : List Char)
    (hs : s.data = a.data ++ '/' :: b)
    (hb : ∀ c ∈ b, (!(c == '/')) = true) :
    parentDir s = a := by
  unfold parentDir
  rw [hs, List.reverse_append, List.reverse_cons, List.append_assoc,
    List.singleton_append]
  rw [dropWhile_append_of_all (fun c => !(c == '/')) b.reverse
    ('/' :: a.data.reverse) (fun c hc => hb c (List.mem_reverse.mp hc))]
  rw [List.dropWhile_cons]
  simp only [beq_self_eq_true, Bool.not_true, Bool.false_eq_true, if_false]
  show String.mk a.data.reverse.reverse = a
  rw [List.reverse_reverse]

theorem digitChar_ne_slash (m : Nat) : Nat.digitChar m ≠ '/' := by
  match m with
  | 0 | 1 | 2 | 3 | 4 | 5 | 6 | 7 | 8 | 9 | 10 | 11 | 12 | 13 | 14 | 15 => decide
  | n + 16 =>
    intro h
    unfold Nat.digitChar at h
    have e0 : ¬ n + 16 = 0 := by omega
    have e1 : ¬ n + 16 = 1 := by omega
    have e2 : ¬ n + 16 = 2 := by omega
    have e3 : ¬ n + 16 = 3 := by omega
    have e4 : ¬ n + 16 = 4 := by omega
    have e5 : ¬ n + 16 = 5 := by omega
    have e6 : ¬ n + 16 = 6 := by omega
    have e7 : ¬ n + 16 = 7 := by omega
    have e8 : ¬ n + 16 = 8 := by omega
    have e9 : ¬ n + 16 = 9 := by omega
    have ea : ¬ n + 16 = 10 := by omega
    have eb : ¬ n + 16 = 11 := by omega
    have ec : ¬ n + 16 = 12 := by omega
    have ed : ¬ n + 16 = 13 := by omega
    have ee : ¬ n + 16 = 14 := by omega
    have ef : ¬ n + 16 = 15 := by omega
    rw [if_neg e0, if_neg e1, if_neg e2, if_neg e3, if_neg e4, if_neg e5,
        if_neg e6, if_neg e7, if_neg e8, if_neg e9, if_neg ea, if_neg eb,
        if_neg ec, if_neg ed, if_neg ee, if_neg ef] at h
    exact absurd h (by decide)

theorem toDigitsCore_ne_slash (b fuel : Nat) :
    ∀ (n : Nat) (acc : List Char), (∀ c ∈ acc, c ≠ '/') →
      ∀ c ∈ Nat.toDigitsCore b fuel n acc, c ≠ '/' := by
  induction fuel with
  | zero =>
    intro n acc hacc c hc
    exact hacc c hc
  | succ fuel ih =>
    intro n acc hacc c hc
    unfold Nat.toDigitsCore at hc
    have hcons : ∀ x ∈ Nat.digitChar (n % b) :: acc, x ≠ '/' := by
      intro x hx
      rcases List.mem_cons.mp hx with h | h
      · rw [h]; exact digitChar_ne_slash _
      · exact hacc x h
    dsimp only at hc
    by_cases hz : n / b = 0
    · rw [if_pos hz] at hc
      exact hcons c hc
    · rw [if_neg hz] at hc
      exact ih _ _ hcons c hc

theorem toString_nat_ne_slash (n : Nat) : ∀ c ∈ (toString n).data, c ≠ '/' := by
  intro c hc
  have : c ∈ Nat.toDigits 10 n := hc
  exact toDigitsCore_ne_slash 10 (n + 1) n [] (by intro x hx; cases hx) c this

theorem mem_mkdirList (dirs : List String) (d : String) :
    d ∈ mkdirList dirs d := by
  unfold mkdirList
  split
  · assumption
  · simp

theorem not_mem_filter_ne (dirs : List String) (d : String) :
    d ∉ dirs.filter (fun d2 => !(d2 == d)) := by
  intro h
  have := List.of_mem_filter h
  simp at this

theorem splitStemExt_sub (name : String) :
    (∀ c ∈ (splitStemExt name).1.data, c ∈ name.data) ∧
    (∀ c ∈ (splitStemExt name).2.data, c ∈ name.data) := by
  have hcases : splitStemExt name = (name, "") ∨
      ∃ i, splitStemExt name = (⟨name.data.take i⟩, ⟨name.data.drop i⟩) := by
    unfold splitStemExt
    dsimp only
    cases name.data.reverse.findIdx? (fun c => c == '.') with
    | none => exact Or.inl rfl
    | some k =>
      dsimp only
      split
      · exact Or.inr ⟨_, rfl⟩
      · exact Or.inl rfl
  rcases hcases with h | ⟨i, h⟩ <;> rw [h]
  · exact ⟨fun c hc => hc, fun c hc => by cases hc⟩
  · constructor
    · intro c hc
      exact List.take_subset _ _ hc
    · intro c hc
      exact List.drop_subset _ _ hc

theorem find?_isSome_of_mem {α} {l : List α} {p : α → Bool} {x : α}
    (hx : x ∈ l) (hp : p x = true) : ∃ y, l.find? p = some y := by
  cases h : l.find? p with
  | some y => exact ⟨y, rfl⟩
  | none => exact absurd hp (by simpa using List.find?_eq_none.mp h x hx)

theorem get_version_by_number_set_pinned (w : World) (fid : String) (n : Nat)
    (pinned : Bool) (pp : Option String) :
    get_version_by_number (set_version_pinned w fid n pinned pp) fid n
      = (get_version_by_number w fid n).map
          (fun v => { v with is_pinned := pinned, pinned_path := pp }) := by
  unfold get_version_by_number set_version_pinned
  exact find?_map_cond _ _ _ (fun a => rfl)

theorem set_version_pinned_all (w : World) (fid : String) (n : Nat)
    (pinned : Bool) (pp : Option String) :
    ∀ v ∈ (set_version_pinned w fid n pinned pp).versions,
      v.file_id = fid → v.version_number = n →
      v.is_pinned = pinned ∧ v.pinned_path = pp := by
  intro v hv hf hn
  simp only [set_version_pinned, List.mem_map] at hv
  obtain ⟨a, ha, hva⟩ := hv
  by_cases hpa : (a.file_id == fid && a.version_number == n) = true
  · rw [if_pos hpa] at hva
    rw [← hva]
    exact ⟨rfl, rfl⟩
  · rw [if_neg hpa] at hva
    subst hva
    exact absurd (by simp [hf, hn]) hpa

theorem unpin_version_spec (W : World) (fid : String) (n : Nat) (v : Version)
    (pp pd : String)
    (hv : get_version_by_number W fid n = some v)
    (hpin : v.is_pinned = true)
    (hpath : v.pinned_path = some pp)
    (hne : (pp == "") = false)
    (hex : (FS.get W.fs pp).isSome = true)
    (hpd : parentDir pp = pd)
    (hmem : pd ∈ W.dirs) :
    ∃ w2 : World, unpin_version W fid n = (w2, true) ∧
      FS.get w2.fs pp = none ∧
      (∀ v' ∈ w2.versions, v'.file_id = fid → v'.version_number = n →
        v'.is_pinned = false ∧ v'.pinned_path = none) ∧
      ((pd ∈ w2.dirs) ↔
        World.dirEmpty { W with fs := FS.erase W.fs pp } pd = false) := by
  unfold unpin_version
  rw [hv]
  dsimp only
  rw [hpin, hpath]
  simp only [Bool.not_true, Bool.false_eq_true, if_false, hne, hex, if_true, hpd]
  rw [decide_eq_true hmem]
  by_cases hde : World.dirEmpty { W with fs := FS.erase W.fs pp } pd = true
  · rw [hde]
    simp only [Bool.and_self, if_true]
    refine ⟨_, rfl, ?_, ?_, ?_⟩
    · exact FS.get_erase_self _ _
    · exact set_version_pinned_all _ fid n false none
    · constructor
      · intro h
        exact absurd h (not_mem_filter_ne _ _)
      · intro h
        exact absurd h (by decide)
  · have hdef : World.dirEmpty { W with fs := FS.erase W.fs pp } pd = false :=
      Bool.eq_false_iff.mpr hde
    rw [hdef]
    simp only [Bool.and_false, Bool.false_eq_true, if_false]
    refine ⟨_, rfl, ?_, ?_, ?_⟩
    · exact FS.get_erase_self _ _
    · exact set_version_pinned_all _ fid n false none
    · constructor
      · intro _
        trivial
      · intro _
        exact hmem

/-- Claim C5: pinning then unpinning a version is a round trip: no
pinned artifact remains on disk, every matching version row carries
is_pinned false with a NULL pinned path, and the per-file pin directory
is removed exactly when the unlink of the artifact leaves it empty. -/
theorem pin_unpin_round_trip (cfg : SvcConfig) (w : World) (fid : String)
    (n : Nat) (pinRoot : String) (tf : TrackedFile) (bp : String) (d : DiskFile)
    (hroot : cfg.pin_storage_path = some pinRoot)
    (htf : get_file w fid = some tf)
    (hbp : get_version_backup_path cfg w fid n = some bp)
    (hd : FS.get w.fs bp = some d)
    (hrow : ∃ v ∈ w.versions, v.file_id = fid ∧ v.version_number = n)
    (hname : ∀ c ∈ tf.display_name.data, c ≠ '/') :
    ∃ w1 : World,
      pin_version cfg w fid n =
        (w1, .ok (some (pinned_version_path pinRoot fid n tf.display_name))) ∧
      ∃ w2 : World, unpin_version w1 fid n = (w2, true) ∧
        FS.get w2.fs (pinned_version_path pinRoot fid n tf.display_name) = none ∧
        (∀ v ∈ w2.versions, v.file_id = fid → v.version_number = n →
          v.is_pinned = false ∧ v.pinned_path = none) ∧
        ((pin_dir pinRoot fid ∈ w2.dirs) ↔
          World.dirEmpty
            { w1 with fs := (FS.erase w1.fs (pinned_version_path pinRoot fid n tf.display_name)) }
            (pin_dir pinRoot fid) = false) := by
  have hsub := splitStemExt_sub tf.display_name
  have hfname : ∀ c ∈ ((splitStemExt tf.display_name).1 ++ "_v" ++ toString n
      ++ "_pinned" ++ (splitStemExt tf.display_name).2).data,
      (!(c == '/')) = true := by
    intro c hc
    have hcne : c ≠ '/' := by
      rw [String.data_append, String.data_append, String.data_append,
        String.data_append] at hc
      simp only [List.mem_append] at hc
      rcases hc with ((((h | h) | h) | h) | h)
      · exact hname c (hsub.1 c h)
      · have h2 : c ∈ ['_', 'v'] := h
        fin_cases h2 <;> decide
      · exact toString_nat_ne_slash n c h
      · have h2 : c ∈ ['_', 'p', 'i', 'n', 'n', 'e', 'd'] := h
        fin_cases h2 <;> decide
      · exact hname c (hsub.2 c h)
    rw [Bool.not_eq_true']
    exact beq_eq_false_iff_ne.mpr hcne
  have hPPdata : (pinned_version_path pinRoot fid n tf.display_name).data
      = (pin_dir pinRoot fid).data ++ '/' ::
        ((splitStemExt tf.display_name).1 ++ "_v" ++ toString n ++ "_pinned"
          ++ (splitStemExt tf.display_name).2).data := by
    show (pin_dir pinRoot fid ++ "/" ++
      ((splitStemExt tf.display_name).1 ++ "_v" ++ toString n ++ "_pinned"
        ++ (splitStemExt tf.display_name).2)).data = _
    rw [String.data_append, String.data_append, List.append_assoc]
    rfl
  have hparent : parentDir (pinned_version_path pinRoot fid n tf.display_name)
      = pin_dir pinRoot fid :=
    parentDir_eq _ _ _ hPPdata hfname
  have hPPne : ((pinned_version_path pinRoot fid n tf.display_name) == "")
      = false := by
    rw [beq_eq_false_iff_ne]
    intro he
    have hxx := hPPdata
    rw [he] at hxx
    simp at hxx
  obtain ⟨v0, hv0mem, hv0f, hv0n⟩ := hrow
  obtain ⟨vf, hvf⟩ := find?_isSome_of_mem
    (p := fun v => v.file_id == fid && v.version_number == n) hv0mem
    (by simp [hv0f, hv0n])
  refine ⟨set_version_pinned { w with dirs := mkdirList w.dirs (pin_dir pinRoot fid), fs := (FS.set w.fs (pinned_version_path pinRoot fid n tf.display_name) d) } fid n true (some (pinned_version_path pinRoot fid n tf.display_name)), ?_, ?_⟩
  · simp [pin_version, hroot, htf, hbp, hd]
  · have hv1 : get_version_by_number (set_version_pinned { w with dirs := mkdirList w.dirs (pin_dir pinRoot fid), fs := (FS.set w.fs (pinned_version_path pinRoot fid n tf.display_name) d) } fid n true (some (pinned_version_path pinRoot fid n tf.display_name))) fid n = some { vf with is_pinned := true, pinned_path := (some (pinned_version_path pinRoot fid n tf.display_name)) } := by
      rw [get_version_by_number_set_pinned]
      have h0 : get_version_by_number { w with dirs := mkdirList w.dirs (pin_dir pinRoot fid), fs := (FS.set w.fs (pinned_version_path pinRoot fid n tf.display_name) d) } fid n = some vf := hvf
      rw [h0]
      rfl
    have hexx : (FS.get (set_version_pinned { w with dirs := mkdirList w.dirs (pin_dir pinRoot fid), fs := (FS.set w.fs (pinned_version_path pinRoot fid n tf.display_name) d) } fid n true (some (pinned_version_path pinRoot fid n tf.display_name))).fs (pinned_version_path pinRoot fid n tf.display_name)).isSome = true := by
      show (FS.get (FS.set w.fs (pinned_version_path pinRoot fid n tf.display_name) d) (pinned_version_path pinRoot fid n tf.display_name)).isSome = true
      rw [FS.get_set_self]
      rfl
    exact unpin_version_spec _ fid n _ _ _ hv1 rfl rfl hPPne hexx
      hparent (mem_mkdirList _ _)

/-- Witness for C5: version 1 of a.txt, whose backup artifact lives at
the canonical path, is pinned into the pin root and unpinned again. -/
theorem pin_unpin_round_trip_witness :
    ∃ w1 : World,
      pin_version ⟨"vs", some "pins"⟩
        { fs := [("vs/f1/a_v1.txt", ⟨[3], 0⟩)],
          files := [{ id := "f1", display_name := "a.txt",
                      file_path := "/a.txt", file_size := 1,
                      modified_time := 0, status := .OK, created_at := "t" }],
          versions := [{ id := "v1", file_id := "f1", version_number := 1,
                         commit_message := "m", file_size := 1,
                         modified_time := 0, created_at := "t" }] } "f1" 1 =
        (w1, .ok (some (pinned_version_path "pins" "f1" 1 "a.txt"))) ∧
      ∃ w2 : World, unpin_version w1 "f1" 1 = (w2, true) ∧
        FS.get w2.fs (pinned_version_path "pins" "f1" 1 "a.txt") = none ∧
        (∀ v ∈ w2.versions, v.file_id = "f1" → v.version_number = 1 →
          v.is_pinned = false ∧ v.pinned_path = none) ∧
        ((pin_dir "pins" "f1" ∈ w2.dirs) ↔
          World.dirEmpty
            { w1 with fs := (FS.erase w1.fs (pinned_version_path "pins" "f1" 1 "a.txt")) }
            (pin_dir "pins" "f1") = false) :=
  pin_unpin_round_trip ⟨"vs", some "pins"⟩
    { fs := [("vs/f1/a_v1.txt", ⟨[3], 0⟩)],
      files := [{ id := "f1", display_name := "a.txt", file_path := "/a.txt",
                  file_size := 1, modified_time := 0, status := .OK,
                  created_at := "t" }],
      versions := [{ id := "v1", file_id := "f1", version_number := 1,
                     commit_message := "m", file_size := 1, modified_time := 0,
                     created_at := "t" }] } "f1" 1 "pins"
    { id := "f1", display_name := "a.txt", file_path := "/a.txt",
      file_size := 1, modified_time := 0, status := .OK, created_at := "t" }
    "vs/f1/a_v1.txt" ⟨[3], 0⟩
    rfl (by decide) (by decide) (by decide) (by decide) (by decide)

/-! ## Relink resolver (file_service.py lines 270-385) -/

structure Candidate where
  path : String
  size : Nat
  mtime : Int
deriving DecidableEq

structure RelinkSummary where
  checked : Nat
  relinked : Nat
  not_found : Nat
  scanned : Nat
  hash_checked : Nat
  size_filtered : Nat
  date_filtered : Nat
deriving DecidableEq

/-- index.setdefault(name, []).append(entry). -/
def indexInsert (idx : List (String × List Candidate)) (name : String)
    (c : Candidate) : List (String × List Candidate) :=
  match idx with
  | [] => [(name, [c])]
  | (n0, cs) :: rest =>
    if n0 == name then (n0, cs ++ [c]) :: rest
    else (n0, cs) :: indexInsert rest name c

/-- One entry of the index-building walk (lines 297-318).  The filter
counters are incremented on the name `summary`, which is only assigned
after the walk (line 327), so the first size- or date-filtered entry
raises UnboundLocalError.  Extension-filtered entries are skipped
without any counting. -/
def relinkWalkStep (include_exts : Option (List String))
    (max_size_bytes : Option Nat) (cutoff_ts : Option Int) (root : String)
    (acc : Except String (List (String × List Candidate)))
    (e : String × DiskFile) :
    Except String (List (String × List Candidate)) :=
  match acc with
  | .error msg => .error msg
  | .ok idx =>
    if !(pathUnder root e.1) then .ok idx
    else
      let name := baseName e.1
      let ext := stripDots (strLower (splitStemExt name).2)
      if (match include_exts with
          | some l => !l.isEmpty && !(l.contains ext)
          | none => false) then .ok idx
      else if (match max_size_bytes with
          | some m => !(m == 0) && decide (e.2.content.length > m)
          | none => false) then .error "UnboundLocalError"
      else if (match cutoff_ts with
          | some ct => !(ct == 0) && decide (e.2.mtime < ct)
          | none => false) then .error "UnboundLocalError"
      else .ok (indexInsert idx name ⟨e.1, e.2.content.length, e.2.mtime⟩)

/-- The os.walk pass over the root subtree, in filesystem order. -/
def relinkWalk (fs : FS) (root : String) (include_exts : Option (List String))
    (max_size_bytes : Option Nat) (cutoff_ts : Option Int) :
    Except String (List (String × List Candidate)) :=
  fs.foldl (relinkWalkStep include_exts max_size_bytes cutoff_ts root) (.ok [])

/-- The hash-mode candidate scan (lines 346-351): hash each candidate
in order and stop at the first exact match, counting every hash
computed, the matching one included. -/
def hashScan (fs : FS) (hashFn : List Nat → String) (stored : Option String) :
    List Candidate → Nat × Option Candidate
  | [] => (0, none)
  | c :: cs =>
    if compute_file_hash fs hashFn c.path == stored then (1, some c)
    else
      let r := hashScan fs hashFn stored cs
      (r.1 + 1, r.2)

/-- min(entries, key=mtime distance), lines 354-358: the first entry
with minimal absolute mtime difference (Python min keeps the earliest
of ties). -/
def minByMtime (target : Int) : List Candidate → Option Candidate
  | [] => none
  | c :: cs =>
    some (cs.foldl (fun best x =>
      if (x.mtime - target).natAbs < (best.mtime - target).natAbs then x
      else best) c)

/-- The per-file relink loop (lines 337-385): exact filename match,
narrowing to exact size matches when any exist, hash short-circuit or
nearest-mtime selection, then update_file_location.  The following
create_event call references EventType, which file_service.py never
imports, so a NameError propagates right after the database update:
the relinked counter increment on line 383 is unreachable. -/
def relinkProcess (hashFn : List Nat → String)
    (idx : List (String × List Candidate)) (use_hash : Bool) :
    List TrackedFile → World → RelinkSummary →
      World × Except String RelinkSummary
  | [], w, s => (w, .ok s)
  | tf :: rest, w, s =>
    let name := baseName tf.file_path
    let candidates := ((idx.find? (fun e => e.1 == name)).map (fun e => e.2)).getD []
    let size_matched := candidates.filter (fun c => c.size == tf.file_size)
    let entries := if size_matched.isEmpty then candidates else size_matched
    if use_hash && pyTruthy tf.file_hash then
      let r := hashScan w.fs hashFn tf.file_hash entries
      let s1 := { s with hash_checked := s.hash_checked + r.1 }
      match r.2 with
      | none =>
        relinkProcess hashFn idx use_hash rest w
          { s1 with not_found := s1.not_found + 1 }
      | some c =>
        (update_file_location w tf.id c.path c.size c.mtime .OK
          (compute_file_hash w.fs hashFn c.path), .error "NameError")
    else
      match minByMtime tf.modified_time entries with
      | none =>
        relinkProcess hashFn idx use_hash rest w
          { s with not_found := s.not_found + 1 }
      | some c =>
        (update_file_location w tf.id c.path c.size c.mtime .OK tf.file_hash,
          .error "NameError")

/-- relink_missing_files (lines 270-385): build the filename index over
the walk, list the missing tracked files (not archived, status MISSING
or path gone), then process them.  summary.scanned is len(index), the
number of distinct candidate names.  The root existence check is
omitted here: the claims exercise it on an existing root. -/
def relink_missing_files (hashFn : List Nat → String) (w : World)
    (root : String) (use_hash : Bool) (include_exts : Option (List String))
    (max_size_bytes : Option Nat) (modified_within_days : Option Nat)
    (now : Int) : World × Except String RelinkSummary :=
  let cutoff_ts : Option Int :=
    match modified_within_days with
    | some dd => if dd ≠ 0 then some (now - (dd : Int) * 86400) else none
    | none => none
  match relinkWalk w.fs root include_exts max_size_bytes cutoff_ts with
  | .error msg => (w, .error msg)
  | .ok idx =>
    let missing := w.files.filter (fun tf =>
      !tf.is_archived &&
        (tf.status == FileStatus.MISSING || (FS.get w.fs tf.file_path).isNone))
    relinkProcess hashFn idx use_hash missing w
      { checked := missing.length, relinked := 0, not_found := 0,
        scanned := idx.length, hash_checked := 0, size_filtered := 0,
        date_filtered := 0 }

set_option maxRecDepth 100000 in
/-- Claim C3 fails on the code: in the spec relink scenario the
resolver narrows to exact size matches and selects old/report.pdf as
the mtime-nearest candidate, and the file row is updated to it, but
the subsequent create_event call raises NameError (EventType is never
imported in file_service.py), so the relinked counter is never
incremented and no summary is returned. -/
theorem relink_scenario_nameerror :
    relink_missing_files (fun _ => "h")
      { fs := [("root/old/report.pdf", ⟨List.replicate 500 0, 1001⟩),
               ("root/new/report.pdf", ⟨List.replicate 500 0, 1100⟩)],
        files := [{ id := "f1", display_name := "report.pdf",
                    file_path := "docs/report.pdf", file_size := 500,
                    modified_time := 1000, status := .MISSING,
                    created_at := "t" }] }
      "root" false none none none 0 =
    ({ fs := [("root/old/report.pdf", ⟨List.replicate 500 0, 1001⟩),
              ("root/new/report.pdf", ⟨List.replicate 500 0, 1100⟩)],
       files := [{ id := "f1", display_name := "report.pdf",
                   file_path := "root/old/report.pdf", file_size := 500,
                   modified_time := 1001, status := .OK, created_at := "t",
                   file_hash := none }] },
     .error "NameError") := by
  rfl

set_option maxRecDepth 100000 in
/-- Claim C6 fails on the code: the first size-filtered walk entry,
and likewise the first date-filtered one, raises UnboundLocalError
because the filter counters increment summary before the walk loop
ever assigns it; nothing is counted and no summary is returned. -/
theorem relink_filter_unboundlocalerror :
    relink_missing_files (fun _ => "h")
      { fs := [("root/big.bin", ⟨List.replicate 200 0, 50⟩)] }
      "root" false none (some 100) none 0 =
    ({ fs := [("root/big.bin", ⟨List.replicate 200 0, 50⟩)] },
     .error "UnboundLocalError") ∧
    relink_missing_files (fun _ => "h")
      { fs := [("root/old.bin", ⟨List.replicate 10 0, 50⟩)] }
      "root" false none none (some 1) 200000 =
    ({ fs := [("root/old.bin", ⟨List.replicate 10 0, 50⟩)] },
     .error "UnboundLocalError") :=
  ⟨rfl, rfl⟩

end VersionManager
